import Mathlib

/-!
Shallow embedding of `src/profile.py` (the `Timer` benchmarking decorator).

Modelling conventions:
* Elapsed-time samples are rationals (`ℚ`): the Python floats carry no
  semantics the claims depend on beyond ordered-field arithmetic.
* The Python `statistics` standard-library reducers are modelled as
  `List ℚ → Option ℚ`, where `none` models the `StatisticsError` they raise
  on inputs that are too short (`mean`/`median`/`min`/`max` on an empty list,
  `stdev` on fewer than two points).  `statistics.stdev`'s square root is
  modelled with `Rat.sqrt`; no claim concerns its numeric value, only its
  presence in the report and its failure on short series.
* The monotonic clock is modelled by an oracle `dur : Nat → ℚ` giving the
  measured duration (`end - start`) of the k-th run of one wrapped call.
* The target callable is `f : α → Nat → Except ε β`: it receives the
  wrapped call's argument and (to model hidden state across the `runs`
  repetitions) the index of the invocation, and may raise (`Except.error`).
* Python dicts are association lists with Python's insertion-order
  semantics: assigning to an existing key updates it in place, a new key is
  appended.
-/

namespace Profile

/-- A reduction function over the sample series, as passed to the `stats`
parameter; `none` models a raised exception. -/
def MetricFn : Type := List ℚ → Option ℚ

/-- `statistics.mean`: arithmetic mean; raises on an empty series. -/
def pymean : MetricFn := fun xs =>
  if xs.length = 0 then none else some (xs.sum / (xs.length : ℚ))

/-- `statistics.median`: middle of the sorted series (average of the two
middle elements for even length); raises on an empty series. -/
def pymedian : MetricFn := fun xs =>
  let s := xs.insertionSort (· ≤ ·)
  let n := xs.length
  if n = 0 then none
  else if n % 2 = 1 then some (s.getD (n / 2) 0)
  else some ((s.getD (n / 2 - 1) 0 + s.getD (n / 2) 0) / 2)

/-- `statistics.stdev`: sample standard deviation; raises on fewer than two
points.  The square root is modelled with `Rat.sqrt`. -/
def pystdev : MetricFn := fun xs =>
  if xs.length < 2 then none
  else
    let m := xs.sum / (xs.length : ℚ)
    some (Rat.sqrt ((xs.map (fun x => (x - m) ^ 2)).sum / ((xs.length : ℚ) - 1)))

/-- Python builtin `sum`: never raises on a list of numbers. -/
def pysum : MetricFn := fun xs => some xs.sum

/-- Python builtin `min` over a list: raises on an empty series. -/
def pymin : MetricFn := fun xs =>
  match xs with
  | [] => none
  | h :: t => some (t.foldl min h)

/-- Python builtin `max` over a list: raises on an empty series. -/
def pymax : MetricFn := fun xs =>
  match xs with
  | [] => none
  | h :: t => some (t.foldl max h)

/-- One entry of the `stats` iterable: a string, a callable (carrying its
`__name__`), or any other Python object (modelled by an integer payload),
which is neither a string nor callable. -/
inductive StatEntry where
  | str : String → StatEntry
  | callable : String → MetricFn → StatEntry
  | other : Int → StatEntry

/-- The `str_to_function` table of `Timer.__init__`, in source order. -/
def strToFunction : List (String × MetricFn) :=
  [("mean", pymean), ("median", pymedian), ("stdev", pystdev),
   ("total", pysum), ("min", pymin), ("max", pymax)]

/-- Python dict assignment `d[k] = v`: update the (unique) existing binding
in place if the key exists, otherwise append (insertion order preserved). -/
def dictInsert : List (String × V) → String → V → List (String × V)
  | [], k, v => [(k, v)]
  | p :: rest, k, v => if p.1 = k then (k, v) :: rest else p :: dictInsert rest k v

/-- Python dict lookup `d[k]` / `k in d` combined: first (unique) binding. -/
def dictLookup (d : List (String × V)) (k : String) : Option V :=
  match d with
  | [] => none
  | p :: rest => if p.1 = k then some p.2 else dictLookup rest k

/-- Python `k in d`. -/
def dictContains (d : List (String × V)) (k : String) : Bool :=
  d.any (fun p => p.1 = k)

/-- Python `del d[k]`: remove the binding, keeping the order of the rest. -/
def dictDelete (d : List (String × V)) (k : String) : List (String × V) :=
  d.filter (fun p => decide (p.1 ≠ k))

/-- The `KeyError` raised by `Timer.__init__`: carries the offending name
and the available (valid) names, as in
`f"No such function {s}, available functions: {str_to_function.keys()}"`. -/
structure InitError where
  offending : String
  valid : List String
deriving DecidableEq

/-- The `for s in stats:` loop of `Timer.__init__` (lines 87–96 of
`src/profile.py`), building the `metrics` dict from the accumulated state:
a recognized name binds the table's function, a callable binds under its own
`__name__`, a bad string raises `KeyError`, and any other entry falls
through both `isinstance(s, str)` and `callable(s)` and is skipped. -/
def buildMetrics : List StatEntry → List (String × MetricFn) →
    Except InitError (List (String × MetricFn))
  | [], m => .ok m
  | .str s :: rest, m =>
    match dictLookup strToFunction s with
    | some f => buildMetrics rest (dictInsert m s f)
    | none => .error ⟨s, strToFunction.map Prod.fst⟩
  | .callable n f :: rest, m => buildMetrics rest (dictInsert m n f)
  | .other _ :: rest, m => buildMetrics rest m

/-- The `Timer` instance state set up by `__init__` (and `func_name`
assigned by `__call__`). -/
structure Timer where
  funcName : String
  runs : Int
  printReport : Bool
  roundFloats : Int
  report : List (String × ℚ)
  metrics : List (String × MetricFn)

/-- `Timer.__init__`: build the metrics dict from `stats`, then drop
`stdev` when `runs == 1` (lines 97–99). -/
def Timer.init (runs : Int) (printReport : Bool) (roundFloats : Int)
    (stats : List StatEntry) : Except InitError Timer :=
  match buildMetrics stats [] with
  | .error e => .error e
  | .ok metrics =>
    let metrics :=
      if runs = 1 ∧ dictContains metrics "stdev" = true then dictDelete metrics "stdev"
      else metrics
    .ok ⟨"", runs, printReport, roundFloats, [], metrics⟩

/-- `Timer.__call__` up to building `wrapper`: records
`self.func_name = input_func.__name__`. -/
def Timer.call (t : Timer) (funcName : String) : Timer :=
  { t with funcName := funcName }

/-- State of the locals of `wrapper` during the measurement loop:
`time_series`, the (possibly still unbound) `rvalue`, and — for
observation — the list of arguments the target has been invoked with. -/
structure LoopState (α β : Type) where
  timeSeries : List ℚ
  rvalue : Option β
  calls : List α

/-- The `for _ in range(self.runs):` loop of `wrapper` (lines 125–129):
each iteration invokes the target with the call's argument; a raise aborts
the loop immediately with the loop state at that point; a normal return
appends `end - start` to `time_series` and overwrites `rvalue`. -/
def measureLoop (f : α → Nat → Except ε β) (dur : Nat → ℚ) (x : α) :
    Nat → LoopState α β → Except (ε × LoopState α β) (LoopState α β)
  | 0, st => .ok st
  | Nat.succ n, st =>
    match f x st.calls.length with
    | .error e => .error (e, { st with calls := st.calls ++ [x] })
    | .ok v =>
      measureLoop f dur x n
        { timeSeries := st.timeSeries ++ [dur st.calls.length],
          rvalue := some v,
          calls := st.calls ++ [x] }

/-- Errors one call of `wrapper` can raise: the target's own exception
(propagated unmodified), a `StatisticsError` from a reducer in the report
dict comprehension (carrying the metric's name), or the `NameError` from
`return rvalue, self.report` when the loop body never ran. -/
inductive RunError (ε : Type) where
  | target : ε → RunError ε
  | statisticsError : String → RunError ε
  | nameError : RunError ε

/-- The dict comprehension of line 132–135:
`{name: func(time_series) for name, func in self.metrics.items()}`,
evaluated in order, raising at the first reducer that raises. -/
def buildReport (metrics : List (String × MetricFn)) (ts : List ℚ) :
    Except String (List (String × ℚ)) :=
  match metrics with
  | [] => .ok []
  | (n, f) :: rest =>
    match f ts with
    | none => .error n
    | some v =>
      match buildReport rest ts with
      | .error e => .error e
      | .ok r => .ok ((n, v) :: r)

/-- One call of `wrapper` (lines 121–138): run the measurement loop, build
and store `self.report`, and return `(rvalue, self.report)`.  Besides the
Python-visible outcome, the embedding returns the updated `Timer` instance
and the final loop state, so that instance-state and invocation-trace claims
can be stated.  Printing (`__print_report`) only writes to the console and is
not modelled. -/
def Timer.wrapper (t : Timer) (f : α → Nat → Except ε β) (dur : Nat → ℚ) (x : α) :
    Except (RunError ε) (β × List (String × ℚ)) × Timer × LoopState α β :=
  match measureLoop f dur x t.runs.toNat ⟨[], none, []⟩ with
  | .error (e, st) => (.error (.target e), t, st)
  | .ok st =>
    match buildReport t.metrics st.timeSeries with
    | .error n => (.error (.statisticsError n), t, st)
    | .ok rep =>
      match st.rvalue with
      | none => (.error .nameError, { t with report := rep }, st)
      | some v => (.ok (v, rep), { t with report := rep }, st)

/-- Which dict key (if any) a `stats` entry binds in `Timer.__init__`. -/
def bindsKey (e : StatEntry) (s : String) : Prop :=
  match e with
  | .str s' => s' = s
  | .callable n _ => n = s
  | .other _ => False

/-- Entries on which the `__init__` loop never raises: strings must be
recognized names; callables and all other objects are accepted. -/
def ValidEntry (e : StatEntry) : Prop :=
  ∀ s, e = .str s → (dictLookup strToFunction s).isSome = true

/-- `Except.isOk` under a local name, used to state success of
`Timer.__init__` independently of the produced value. -/
def isOkE : Except ε α → Bool
  | .ok _ => true
  | .error _ => false

/-! ### Dictionary lemmas -/

theorem dictLookup_dictInsert (d : List (String × V)) (k k' : String) (v : V) :
    dictLookup (dictInsert d k v) k' = if k' = k then some v else dictLookup d k' := by
  induction d with
  | nil =>
    by_cases h : k' = k
    · subst h; simp [dictInsert, dictLookup]
    · simp [dictInsert, dictLookup, h, Ne.symm h]
  | cons p rest ih =>
    by_cases hp : p.1 = k
    · by_cases h : k' = k
      · subst h; simp [dictInsert, dictLookup, hp]
      · have hpk' : ¬ p.1 = k' := by rw [hp]; exact Ne.symm h
        have hk : ¬ k = k' := fun hh => h hh.symm
        simp [dictInsert, dictLookup, hp, h, hpk', hk]
    · by_cases hq : p.1 = k'
      · have hk : ¬ k' = k := fun hh => hp (hq.trans hh)
        simp [dictInsert, dictLookup, hp, hq, hk]
      · simp [dictInsert, dictLookup, hp, hq, ih]

theorem mem_dictInsert (d : List (String × V)) (k : String) (v : V) (p : String × V)
    (h : p ∈ dictInsert d k v) : p ∈ d ∨ p = (k, v) := by
  induction d with
  | nil => simp [dictInsert] at h; simp [h]
  | cons q rest ih =>
    by_cases hq : q.1 = k
    · simp [dictInsert, hq] at h
      rcases h with h | h
      · right; simp [h]
      · left; simp [h]
    · simp [dictInsert, hq] at h
      rcases h with h | h
      · left; simp [h]
      · rcases ih h with h' | h'
        · left; simp [h']
        · right; exact h'

theorem dictContains_eq_isSome (d : List (String × V)) (k : String) :
    dictContains d k = (dictLookup d k).isSome := by
  induction d with
  | nil => simp [dictContains, dictLookup]
  | cons p rest ih =>
    by_cases hp : p.1 = k
    · simp [dictContains, dictLookup, hp]
    · simp [dictContains, dictLookup, hp]
      simpa [dictContains] using ih

theorem dictLookup_dictDelete_ne (d : List (String × V)) (k k' : String) (h : k' ≠ k) :
    dictLookup (dictDelete d k) k' = dictLookup d k' := by
  induction d with
  | nil => simp [dictDelete, dictLookup]
  | cons p rest ih =>
    by_cases hp : p.1 = k
    · have hpk' : ¬ p.1 = k' := by rw [hp]; exact Ne.symm h
      have heq : dictDelete (p :: rest) k = dictDelete rest k := by
        simp [dictDelete, List.filter_cons, hp]
      rw [heq, ih]
      simp [dictLookup, hpk']
    · have heq : dictDelete (p :: rest) k = p :: dictDelete rest k := by
        simp [dictDelete, List.filter_cons, hp]
      rw [heq]
      by_cases hq : p.1 = k' <;> simp [dictLookup, hq, ih]

theorem mem_dictDelete_ne (d : List (String × V)) (k : String) (p : String × V)
    (h : p ∈ dictDelete d k) : p ∈ d ∧ p.1 ≠ k := by
  have := List.mem_filter.mp h
  exact ⟨this.1, by simpa using this.2⟩

theorem dictContains_false_forall (d : List (String × V)) (k : String)
    (h : dictContains d k = false) : ∀ p ∈ d, p.1 ≠ k := by
  intro p hp hk
  have hc : dictContains d k = true := by
    unfold dictContains
    exact List.any_eq_true.mpr ⟨p, hp, by simp [hk]⟩
  rw [h] at hc
  exact Bool.noConfusion hc

theorem dictContains_mem_keys (d : List (String × V)) (k : String) :
    dictContains d k = true ↔ k ∈ d.map Prod.fst := by
  simp [dictContains, List.any_eq_true, List.mem_map]

/-! ### Report-comprehension lemmas -/

theorem buildReport_keys (m : List (String × MetricFn)) (ts : List ℚ)
    (r : List (String × ℚ)) (h : buildReport m ts = .ok r) :
    r.map Prod.fst = m.map Prod.fst := by
  induction m generalizing r with
  | nil => simp [buildReport] at h; simp [← h]
  | cons p rest ih =>
    rcases p with ⟨n, f⟩
    cases hf : f ts with
    | none => simp [buildReport, hf] at h
    | some v =>
      cases hr : buildReport rest ts with
      | error e => simp [buildReport, hf, hr] at h
      | ok r' =>
        simp [buildReport, hf, hr] at h
        simp [← h, ih r' hr]

theorem buildReport_dictLookup (m : List (String × MetricFn)) (ts : List ℚ)
    (r : List (String × ℚ)) (n : String) (fn : MetricFn)
    (h : buildReport m ts = .ok r) (hl : dictLookup m n = some fn) :
    ∃ v, fn ts = some v ∧ dictLookup r n = some v := by
  induction m generalizing r with
  | nil => simp [dictLookup] at hl
  | cons p rest ih =>
    rcases p with ⟨n', f⟩
    cases hf : f ts with
    | none => simp [buildReport, hf] at h
    | some v =>
      cases hr : buildReport rest ts with
      | error e => simp [buildReport, hf, hr] at h
      | ok r' =>
        simp [buildReport, hf, hr] at h
        by_cases hn : n' = n
        · subst hn
          simp [dictLookup] at hl
          subst hl
          exact ⟨v, hf, by simp [← h, dictLookup]⟩
        · simp [dictLookup, hn] at hl
          rcases ih r' hr hl with ⟨v', hv', hl'⟩
          exact ⟨v', hv', by simp [← h, dictLookup, hn, hl']⟩

theorem buildReport_isOk (m : List (String × MetricFn)) (ts : List ℚ)
    (h : ∀ p ∈ m, (p.2 ts).isSome = true) : ∃ r, buildReport m ts = .ok r := by
  induction m with
  | nil => exact ⟨[], rfl⟩
  | cons p rest ih =>
    rcases p with ⟨n, f⟩
    rcases Option.isSome_iff_exists.mp (h (n, f) (by simp)) with ⟨v, hv⟩
    rcases ih (fun q hq => h q (by simp [hq])) with ⟨r, hr⟩
    exact ⟨(n, v) :: r, by simp [buildReport, show f ts = some v from hv, hr]⟩

/-! ### Metrics-construction lemmas -/

theorem dictLookup_mem (d : List (String × V)) (k : String) (v : V)
    (h : dictLookup d k = some v) : (k, v) ∈ d := by
  induction d with
  | nil => simp [dictLookup] at h
  | cons p rest ih =>
    by_cases hp : p.1 = k
    · simp [dictLookup, hp] at h
      have : p = (k, v) := Prod.ext hp h
      simp [this]
    · simp [dictLookup, hp] at h
      simp [ih h]

theorem buildMetrics_ok_of_valid (stats : List StatEntry)
    (m : List (String × MetricFn)) (h : ∀ e ∈ stats, ValidEntry e) :
    ∃ m', buildMetrics stats m = .ok m' := by
  induction stats generalizing m with
  | nil => exact ⟨m, rfl⟩
  | cons e rest ih =>
    cases e with
    | str s =>
      have hv := h (.str s) (by simp) s rfl
      rcases Option.isSome_iff_exists.mp hv with ⟨f, hf⟩
      rcases ih (dictInsert m s f) (fun e he => h e (by simp [he])) with ⟨m', hm'⟩
      exact ⟨m', by simp [buildMetrics, hf, hm']⟩
    | callable n f =>
      rcases ih (dictInsert m n f) (fun e he => h e (by simp [he])) with ⟨m', hm'⟩
      exact ⟨m', by simp [buildMetrics, hm']⟩
    | other z =>
      rcases ih m (fun e he => h e (by simp [he])) with ⟨m', hm'⟩
      exact ⟨m', by simp [buildMetrics, hm']⟩

theorem buildMetrics_error_of_bad (stats : List StatEntry)
    (m : List (String × MetricFn))
    (h : ∃ s, StatEntry.str s ∈ stats ∧ dictLookup strToFunction s = none) :
    ∃ s', buildMetrics stats m = .error ⟨s', strToFunction.map Prod.fst⟩ ∧
      StatEntry.str s' ∈ stats ∧ dictLookup strToFunction s' = none := by
  induction stats generalizing m with
  | nil => rcases h with ⟨s, hs, _⟩; simp at hs
  | cons e rest ih =>
    rcases h with ⟨s, hs, hbad⟩
    cases e with
    | str s₀ =>
      cases hf : dictLookup strToFunction s₀ with
      | none =>
        exact ⟨s₀, by simp [buildMetrics, hf], by simp, hf⟩
      | some f =>
        have hsrest : StatEntry.str s ∈ rest := by
          rcases List.mem_cons.mp hs with h' | h'
          · exfalso
            injection h' with h''
            rw [h''] at hbad
            rw [hbad] at hf
            exact Option.noConfusion hf
          · exact h'
        rcases ih (dictInsert m s₀ f) ⟨s, hsrest, hbad⟩ with ⟨s', h1, h2, h3⟩
        exact ⟨s', by simp [buildMetrics, hf, h1], by simp [h2], h3⟩
    | callable n f =>
      have hsrest : StatEntry.str s ∈ rest := by
        rcases List.mem_cons.mp hs with h' | h'
        · exact StatEntry.noConfusion h'
        · exact h'
      rcases ih (dictInsert m n f) ⟨s, hsrest, hbad⟩ with ⟨s', h1, h2, h3⟩
      exact ⟨s', by simp [buildMetrics, h1], by simp [h2], h3⟩
    | other z =>
      have hsrest : StatEntry.str s ∈ rest := by
        rcases List.mem_cons.mp hs with h' | h'
        · exact StatEntry.noConfusion h'
        · exact h'
      rcases ih m ⟨s, hsrest, hbad⟩ with ⟨s', h1, h2, h3⟩
      exact ⟨s', by simp [buildMetrics, h1], by simp [h2], h3⟩

theorem buildMetrics_mem (stats : List StatEntry)
    (acc m : List (String × MetricFn)) (h : buildMetrics stats acc = .ok m) :
    ∀ p ∈ m, p ∈ acc ∨ p ∈ strToFunction ∨ StatEntry.callable p.1 p.2 ∈ stats := by
  induction stats generalizing acc with
  | nil =>
    simp [buildMetrics] at h
    rw [← h]
    exact fun p hp => Or.inl hp
  | cons e rest ih =>
    intro p hp
    cases e with
    | str s =>
      cases hf : dictLookup strToFunction s with
      | none => simp [buildMetrics, hf] at h
      | some f =>
        have h' : buildMetrics rest (dictInsert acc s f) = .ok m := by
          simpa [buildMetrics, hf] using h
        rcases ih (dictInsert acc s f) h' p hp with hin | htab | hcall
        · rcases mem_dictInsert _ _ _ _ hin with h'' | h''
          · exact Or.inl h''
          · exact Or.inr (Or.inl (h'' ▸ dictLookup_mem _ _ _ hf))
        · exact Or.inr (Or.inl htab)
        · exact Or.inr (Or.inr (by simp [hcall]))
    | callable n fn =>
      have h' : buildMetrics rest (dictInsert acc n fn) = .ok m := by
        simpa [buildMetrics] using h
      rcases ih (dictInsert acc n fn) h' p hp with hin | htab | hcall
      · rcases mem_dictInsert _ _ _ _ hin with h'' | h''
        · exact Or.inl h''
        · refine Or.inr (Or.inr ?_)
          rw [h'']
          simp
      · exact Or.inr (Or.inl htab)
      · exact Or.inr (Or.inr (by simp [hcall]))
    | other z =>
      have h' : buildMetrics rest acc = .ok m := by simpa [buildMetrics] using h
      rcases ih acc h' p hp with hin | htab | hcall
      · exact Or.inl hin
      · exact Or.inr (Or.inl htab)
      · exact Or.inr (Or.inr (by simp [hcall]))

theorem buildMetrics_lookup_stable (stats : List StatEntry)
    (m m' : List (String × MetricFn)) (s : String)
    (h : buildMetrics stats m = .ok m') (hnb : ∀ e ∈ stats, ¬ bindsKey e s) :
    dictLookup m' s = dictLookup m s := by
  induction stats generalizing m with
  | nil =>
    simp [buildMetrics] at h
    rw [h]
  | cons e rest ih =>
    cases e with
    | str s₀ =>
      cases hf : dictLookup strToFunction s₀ with
      | none => simp [buildMetrics, hf] at h
      | some f =>
        have hne : ¬ s₀ = s := hnb (.str s₀) (by simp)
        have hres := ih (dictInsert m s₀ f) (by simpa [buildMetrics, hf] using h)
          (fun e he => hnb e (by simp [he]))
        rw [hres, dictLookup_dictInsert, if_neg (fun hh => hne hh.symm)]
    | callable n f =>
      have hne : ¬ n = s := hnb (.callable n f) (by simp)
      have hres := ih (dictInsert m n f) (by simpa [buildMetrics] using h)
        (fun e he => hnb e (by simp [he]))
      rw [hres, dictLookup_dictInsert, if_neg (fun hh => hne hh.symm)]
    | other z =>
      exact ih m (by simpa [buildMetrics] using h) (fun e he => hnb e (by simp [he]))

theorem buildMetrics_lookup_of_mem (stats : List StatEntry)
    (m m' : List (String × MetricFn)) (s : String) (f : MetricFn)
    (h : buildMetrics stats m = .ok m')
    (hs : StatEntry.str s ∈ stats)
    (hf : dictLookup strToFunction s = some f)
    (hnc : ∀ n fn, StatEntry.callable n fn ∈ stats → n ≠ s) :
    dictLookup m' s = some f := by
  induction stats generalizing m with
  | nil => simp at hs
  | cons e rest ih =>
    by_cases hrest : StatEntry.str s ∈ rest
    · cases e with
      | str s₀ =>
        cases hf₀ : dictLookup strToFunction s₀ with
        | none => simp [buildMetrics, hf₀] at h
        | some f₀ =>
          exact ih (dictInsert m s₀ f₀) (by simpa [buildMetrics, hf₀] using h) hrest
            (fun n fn hm => hnc n fn (by simp [hm]))
      | callable n fn =>
        exact ih (dictInsert m n fn) (by simpa [buildMetrics] using h) hrest
          (fun n' fn' hm => hnc n' fn' (by simp [hm]))
      | other z =>
        exact ih m (by simpa [buildMetrics] using h) hrest
          (fun n' fn' hm => hnc n' fn' (by simp [hm]))
    · have he : e = StatEntry.str s := by
        rcases List.mem_cons.mp hs with h' | h'
        · exact h'.symm
        · exact absurd h' hrest
      subst he
      have hnb : ∀ e ∈ rest, ¬ bindsKey e s := by
        intro e he hb
        cases e with
        | str s' =>
          have : s' = s := hb
          rw [this] at he
          exact hrest he
        | callable n fn =>
          have : n = s := hb
          exact hnc n fn (by simp [he]) this
        | other z => exact hb
      have hstable := buildMetrics_lookup_stable rest (dictInsert m s f) m' s
        (by simpa [buildMetrics, hf] using h) hnb
      rw [hstable, dictLookup_dictInsert, if_pos rfl]

/-! ### Measurement-loop lemmas -/

theorem measureLoop_ok {α β ε : Type} (f : α → Nat → Except ε β) (g : Nat → β)
    (dur : Nat → ℚ) (x : α) (n : Nat) (st : LoopState α β)
    (hf : ∀ k, st.calls.length ≤ k → k < st.calls.length + n → f x k = Except.ok (g k)) :
    measureLoop f dur x n st =
      .ok ⟨st.timeSeries ++ (List.range' st.calls.length n).map dur,
           if n = 0 then st.rvalue else some (g (st.calls.length + n - 1)),
           st.calls ++ List.replicate n x⟩ := by
  induction n generalizing st with
  | zero => simp [measureLoop]
  | succ n ih =>
    have h0 : f x st.calls.length = Except.ok (g st.calls.length) :=
      hf _ (le_refl _) (by omega)
    have hf' : ∀ k, (st.calls ++ [x]).length ≤ k →
        k < (st.calls ++ [x]).length + n → f x k = Except.ok (g k) := by
      intro k h1 h2
      simp [List.length_append] at h1 h2
      exact hf k (by omega) (by omega)
    have hrec := ih ⟨st.timeSeries ++ [dur st.calls.length], some (g st.calls.length),
      st.calls ++ [x]⟩ hf'
    simp only [measureLoop, h0]
    rw [hrec]
    simp only [Except.ok.injEq, LoopState.mk.injEq]
    refine ⟨?_, ?_, ?_⟩
    · simp [List.range'_succ, List.length_append, List.append_assoc]
    · rcases n with _ | m
      · simp [List.length_append]
      · simp only [List.length_append, List.length_singleton, Nat.succ_ne_zero, if_false,
          if_neg (Nat.succ_ne_zero m), Option.some.injEq]
        congr 1
        omega
    · simp [List.replicate_succ, List.append_assoc]

theorem measureLoop_error {α β ε : Type} (f : α → Nat → Except ε β) (g : Nat → β)
    (dur : Nat → ℚ) (x : α) (n i : Nat) (e : ε) (st : LoopState α β)
    (hi : i < n)
    (hpre : ∀ k, st.calls.length ≤ k → k < st.calls.length + i → f x k = Except.ok (g k))
    (he : f x (st.calls.length + i) = .error e) :
    measureLoop f dur x n st =
      .error (e, ⟨st.timeSeries ++ (List.range' st.calls.length i).map dur,
                  if i = 0 then st.rvalue else some (g (st.calls.length + i - 1)),
                  st.calls ++ List.replicate (i + 1) x⟩) := by
  induction i generalizing st n with
  | zero =>
    rcases n with _ | m
    · omega
    · have he0 : f x st.calls.length = .error e := by simpa using he
      simp [measureLoop, he0, List.replicate_succ]
  | succ i ih =>
    rcases n with _ | m
    · omega
    · have h0 : f x st.calls.length = Except.ok (g st.calls.length) :=
        hpre _ (le_refl _) (by omega)
      have hpre' : ∀ k, (st.calls ++ [x]).length ≤ k →
          k < (st.calls ++ [x]).length + i → f x k = Except.ok (g k) := by
        intro k h1 h2
        simp [List.length_append] at h1 h2
        exact hpre k (by omega) (by omega)
      have he' : f x ((st.calls ++ [x]).length + i) = .error e := by
        simp only [List.length_append, List.length_singleton]
        have : st.calls.length + 1 + i = st.calls.length + (i + 1) := by omega
        rw [this]
        exact he
      have hrec := ih m ⟨st.timeSeries ++ [dur st.calls.length], some (g st.calls.length),
        st.calls ++ [x]⟩ (by omega) hpre' he'
      simp only [measureLoop, h0]
      rw [hrec]
      simp only [Except.error.injEq, Prod.mk.injEq, LoopState.mk.injEq, true_and]
      refine ⟨?_, ?_, ?_⟩
      · simp [List.range'_succ, List.length_append, List.append_assoc]
      · rcases i with _ | j
        · simp [List.length_append]
        · simp only [List.length_append, List.length_singleton, Nat.succ_ne_zero, if_false,
            if_neg (Nat.succ_ne_zero j), Option.some.injEq]
          congr 1
          omega
      · simp [List.replicate_succ, List.append_assoc]

/-! ### Properties of the standard reducers -/

theorem strToFunction_isSome (p : String × MetricFn) (hp : p ∈ strToFunction)
    (ts : List ℚ) (h1 : 1 ≤ ts.length) (h2 : p.1 = "stdev" → 2 ≤ ts.length) :
    (p.2 ts).isSome = true := by
  have hne : ts.length ≠ 0 := by omega
  simp [strToFunction] at hp
  rcases hp with h | h | h | h | h | h
  · rw [h]; simp [pymean, hne]
  · rw [h]; simp only [pymedian]
    simp only [if_neg hne]
    split <;> simp
  · rw [h]
    have h2' : 2 ≤ ts.length := h2 (by rw [h])
    simp [pystdev, show ¬ ts.length < 2 by omega]
  · rw [h]; simp [pysum]
  · rw [h]
    cases ts with
    | nil => simp at h1
    | cons b rest => simp [pymin]
  · rw [h]
    cases ts with
    | nil => simp at h1
    | cons b rest => simp [pymax]

theorem foldl_min_le_init (l : List ℚ) (a : ℚ) : l.foldl min a ≤ a := by
  induction l generalizing a with
  | nil => simp
  | cons b t ih =>
    calc (b :: t).foldl min a = t.foldl min (min a b) := rfl
    _ ≤ min a b := ih _
    _ ≤ a := min_le_left _ _

theorem foldl_min_le_mem (l : List ℚ) (i a : ℚ) (h : a ∈ l) : l.foldl min i ≤ a := by
  induction l generalizing i with
  | nil => simp at h
  | cons b t ih =>
    rcases List.mem_cons.mp h with rfl | h
    · calc (a :: t).foldl min i = t.foldl min (min i a) := rfl
      _ ≤ min i a := foldl_min_le_init t _
      _ ≤ a := min_le_right _ _
    · exact ih (min i b) h

theorem init_le_foldl_max (l : List ℚ) (a : ℚ) : a ≤ l.foldl max a := by
  induction l generalizing a with
  | nil => simp
  | cons b t ih =>
    calc a ≤ max a b := le_max_left _ _
    _ ≤ t.foldl max (max a b) := ih _
    _ = (b :: t).foldl max a := rfl

theorem mem_le_foldl_max (l : List ℚ) (i a : ℚ) (h : a ∈ l) : a ≤ l.foldl max i := by
  induction l generalizing i with
  | nil => simp at h
  | cons b t ih =>
    rcases List.mem_cons.mp h with rfl | h
    · calc a ≤ max i a := le_max_right _ _
      _ ≤ t.foldl max (max i a) := init_le_foldl_max t _
      _ = (a :: t).foldl max i := rfl
    · exact ih (max i b) h

theorem pymin_le (xs : List ℚ) (m : ℚ) (h : pymin xs = some m) : ∀ a ∈ xs, m ≤ a := by
  cases xs with
  | nil => simp [pymin] at h
  | cons b t =>
    simp [pymin] at h
    subst h
    intro a ha
    rcases List.mem_cons.mp ha with rfl | ha
    · exact foldl_min_le_init t a
    · exact foldl_min_le_mem t b a ha

theorem le_pymax (xs : List ℚ) (m : ℚ) (h : pymax xs = some m) : ∀ a ∈ xs, a ≤ m := by
  cases xs with
  | nil => simp [pymax] at h
  | cons b t =>
    simp [pymax] at h
    subst h
    intro a ha
    rcases List.mem_cons.mp ha with rfl | ha
    · exact init_le_foldl_max t a
    · exact mem_le_foldl_max t b a ha

/-! ### Inversion lemmas for `Timer.init` and `Timer.wrapper` -/

theorem init_ok_inv (runs : Int) (pr : Bool) (rf : Int) (stats : List StatEntry)
    (t : Timer) (h : Timer.init runs pr rf stats = .ok t) :
    ∃ m, buildMetrics stats [] = .ok m ∧
      t = ⟨"", runs, pr, rf, [],
        if runs = 1 ∧ dictContains m "stdev" = true then dictDelete m "stdev" else m⟩ := by
  cases hm : buildMetrics stats [] with
  | error e => simp [Timer.init, hm] at h
  | ok m =>
    refine ⟨m, rfl, ?_⟩
    simp [Timer.init, hm] at h
    exact h.symm

theorem wrapper_ok_inv {α β ε : Type} (t : Timer) (f : α → Nat → Except ε β)
    (dur : Nat → ℚ) (x : α) (v : β) (rep : List (String × ℚ))
    (t' : Timer) (st : LoopState α β)
    (h : t.wrapper f dur x = (.ok (v, rep), t', st)) :
    measureLoop f dur x t.runs.toNat ⟨[], none, []⟩ = .ok st ∧
    buildReport t.metrics st.timeSeries = .ok rep ∧
    st.rvalue = some v ∧ t' = { t with report := rep } := by
  unfold Timer.wrapper at h
  cases hml : measureLoop f dur x t.runs.toNat ⟨[], none, []⟩ with
  | error p =>
    rw [hml] at h
    rcases p with ⟨e, st₀⟩
    simp at h
  | ok st₀ =>
    rw [hml] at h
    dsimp only at h
    cases hbr : buildReport t.metrics st₀.timeSeries with
    | error n =>
      rw [hbr] at h
      simp at h
    | ok rep₀ =>
      rw [hbr] at h
      dsimp only at h
      cases hrv : st₀.rvalue with
      | none =>
        rw [hrv] at h
        simp at h
      | some v₀ =>
        rw [hrv] at h
        dsimp only at h
        simp only [Prod.mk.injEq, Except.ok.injEq] at h
        obtain ⟨⟨hv, hrep⟩, ht', hst⟩ := h
        subst hst
        refine ⟨rfl, by rw [hbr, hrep], by rw [hrv, hv], by rw [← ht', hrep]⟩

/-- Success and failure of a reducer on the sample series of a freshly
constructed timer: every metric bound by `Timer.init` from named statistics
succeeds on a series of length `runs ≥ 1` (the `stdev` reducer needs two
points, and `__init__` removed it exactly when `runs == 1`). -/
theorem init_metrics_isSome (runs : Int) (pr : Bool) (rf : Int)
    (stats : List StatEntry) (t : Timer)
    (ht : Timer.init runs pr rf stats = .ok t)
    (hcall : ∀ n fn, StatEntry.callable n fn ∈ stats →
      ∀ ts : List ℚ, ts ≠ [] → (fn ts).isSome = true)
    (hruns : 1 ≤ runs) (ts : List ℚ) (hlen : ts.length = runs.toNat) :
    ∀ p ∈ t.metrics, (p.2 ts).isSome = true := by
  rcases init_ok_inv runs pr rf stats t ht with ⟨m, hm, rfl⟩
  have hne : ts ≠ [] := List.length_pos.mp (by omega)
  intro p hp
  simp only at hp
  by_cases hc : runs = 1 ∧ dictContains m "stdev" = true
  · rw [if_pos hc] at hp
    obtain ⟨hpm, hpk⟩ := mem_dictDelete_ne _ _ _ hp
    rcases buildMetrics_mem stats [] m hm p hpm with hin | htab | hcl
    · simp at hin
    · exact strToFunction_isSome p htab ts (by omega) (fun hk => absurd hk hpk)
    · exact hcall p.1 p.2 hcl ts hne
  · rw [if_neg hc] at hp
    rcases buildMetrics_mem stats [] m hm p hp with hin | htab | hcl
    · simp at hin
    · refine strToFunction_isSome p htab ts (by omega) ?_
      intro hk
      have hcont : dictContains m "stdev" = true := by
        rw [dictContains_mem_keys]
        exact List.mem_map.mpr ⟨p, hp, hk⟩
      have hr1 : ¬ runs = 1 := fun h1 => hc ⟨h1, hcont⟩
      omega
    · exact hcall p.1 p.2 hcl ts hne

theorem dictContains_dictDelete_self (d : List (String × V)) (k : String) :
    dictContains (dictDelete d k) k = false := by
  by_contra hc
  rw [Bool.not_eq_false, dictContains_mem_keys] at hc
  rcases List.mem_map.mp hc with ⟨p, hp, hk⟩
  exact (mem_dictDelete_ne d k p hp).2 hk

/-- The loop state returned alongside the wrapper's result is the final
loop state in every branch after a normally terminating loop. -/
theorem wrapper_state_of_loop_ok {α β ε : Type} (t : Timer)
    (f : α → Nat → Except ε β) (dur : Nat → ℚ) (x : α) (st : LoopState α β)
    (hml : measureLoop f dur x t.runs.toNat ⟨[], none, []⟩ = .ok st) :
    (t.wrapper f dur x).2.2 = st := by
  unfold Timer.wrapper
  rw [hml]
  dsimp only
  cases buildReport t.metrics st.timeSeries with
  | error n => rfl
  | ok rep => cases st.rvalue <;> rfl

/-! ### Claim theorems -/

/-- C1: For every configuration accepted by `Timer.__init__` (with any
custom reducers total on non-empty series), every `runs ≥ 1`, every target
function and every argument, one call of the wrapped function invokes the
target exactly `runs` times with that argument (`calls = replicate runs x`)
and returns the pair `(lastReturnValue, report)`, where `lastReturnValue`
is the return value of the final, `runs`-th invocation (`g (runs-1)`); the
return values of earlier invocations appear nowhere in the result. -/
theorem claim_C1_runs_and_last_value {α β ε : Type} (runs : Int) (pr : Bool) (rf : Int)
    (stats : List StatEntry) (t : Timer)
    (ht : Timer.init runs pr rf stats = .ok t)
    (hcall : ∀ n fn, StatEntry.callable n fn ∈ stats →
      ∀ ts : List ℚ, ts ≠ [] → (fn ts).isSome = true)
    (hruns : 1 ≤ runs)
    (f : α → Nat → Except ε β) (g : Nat → β) (dur : Nat → ℚ) (x : α)
    (hf : ∀ k, f x k = Except.ok (g k)) :
    ∃ rep, buildReport t.metrics ((List.range' 0 runs.toNat).map dur) = .ok rep ∧
      t.wrapper f dur x =
        (.ok (g (runs.toNat - 1), rep),
         { t with report := rep },
         ⟨(List.range' 0 runs.toNat).map dur, some (g (runs.toNat - 1)),
          List.replicate runs.toNat x⟩) := by
  have htr : t.runs = runs := by
    rcases init_ok_inv runs pr rf stats t ht with ⟨m, hm, rfl⟩
    rfl
  have hml := measureLoop_ok f g dur x runs.toNat ⟨[], none, []⟩ (fun k _ _ => hf k)
  simp only [List.nil_append, List.length_nil, Nat.zero_add] at hml
  have hn : ¬ (runs.toNat = 0) := by omega
  rw [if_neg hn] at hml
  have hlen : ((List.range' 0 runs.toNat).map dur).length = runs.toNat := by simp
  have hsome := init_metrics_isSome runs pr rf stats t ht hcall hruns _ hlen
  rcases buildReport_isOk t.metrics _ hsome with ⟨rep, hrep⟩
  refine ⟨rep, hrep, ?_⟩
  unfold Timer.wrapper
  rw [htr, hml]
  dsimp only
  rw [hrep]

/-- C5: For every configuration with a positive run count and every
invocation of the wrapped function in which the target does not raise, the
sample series built by that invocation has length exactly `runs`. -/
theorem claim_C5_sample_series_length {α β ε : Type} (t : Timer)
    (f : α → Nat → Except ε β) (g : Nat → β) (dur : Nat → ℚ) (x : α)
    (hruns : 1 ≤ t.runs)
    (hf : ∀ k, f x k = Except.ok (g k)) :
    ((t.wrapper f dur x).2.2.timeSeries.length : Int) = t.runs := by
  have hml := measureLoop_ok f g dur x t.runs.toNat ⟨[], none, []⟩ (fun k _ _ => hf k)
  rw [wrapper_state_of_loop_ok t f dur x _ hml]
  dsimp only
  simp only [List.nil_append, List.length_map, List.length_range']
  omega

/-- C2 counterexample: constructing with a `stats` entry that is neither a
string nor a callable (the integer 5) does not fail: `__init__` succeeds and
the entry is silently skipped (it binds no metric), because the `for s in
stats:` loop has no `else` branch after `isinstance(s, str)` and
`callable(s)`.  This refutes the claim that such an entry makes
construction fail with an `InvalidStatistic` error. -/
theorem claim_C2_counterexample :
    Timer.init 2 true (-1) [StatEntry.other 5] =
      .ok (Timer.mk "" 2 true (-1) [] []) := rfl

/-- C2 (amended): processing one more `stats` entry after any successfully
processed prefix behaves as follows — a recognized name is bound to the
corresponding reduction function of the table, an unrecognized string fails
with the error naming the entry and listing the valid names, a callable is
bound under its own `__name__`, and any other entry is silently ignored
(no error, no binding). -/
theorem claim_C2_amended_entry_processing (stats : List StatEntry)
    (acc m : List (String × MetricFn)) (h : buildMetrics stats acc = .ok m) :
    (∀ s f, dictLookup strToFunction s = some f →
       buildMetrics (stats ++ [.str s]) acc = .ok (dictInsert m s f)) ∧
    (∀ s, dictLookup strToFunction s = none →
       buildMetrics (stats ++ [.str s]) acc = .error ⟨s, strToFunction.map Prod.fst⟩) ∧
    (∀ n f, buildMetrics (stats ++ [.callable n f]) acc = .ok (dictInsert m n f)) ∧
    (∀ z, buildMetrics (stats ++ [.other z]) acc = .ok m) := by
  induction stats generalizing acc with
  | nil =>
    simp [buildMetrics] at h
    subst h
    refine ⟨?_, ?_, ?_, ?_⟩
    · intro s f hsf
      simp [buildMetrics, hsf]
    · intro s hs
      simp [buildMetrics, hs]
    · intro n f
      simp [buildMetrics]
    · intro z
      simp [buildMetrics]
  | cons e rest ih =>
    cases e with
    | str s₀ =>
      cases hf₀ : dictLookup strToFunction s₀ with
      | none => simp [buildMetrics, hf₀] at h
      | some f₀ =>
        have h' : buildMetrics rest (dictInsert acc s₀ f₀) = .ok m := by
          simpa [buildMetrics, hf₀] using h
        obtain ⟨ih1, ih2, ih3, ih4⟩ := ih (dictInsert acc s₀ f₀) h'
        refine ⟨?_, ?_, ?_, ?_⟩
        · intro s f hsf
          simp only [List.cons_append, buildMetrics, hf₀]
          exact ih1 s f hsf
        · intro s hs
          simp only [List.cons_append, buildMetrics, hf₀]
          exact ih2 s hs
        · intro n f
          simp only [List.cons_append, buildMetrics, hf₀]
          exact ih3 n f
        · intro z
          simp only [List.cons_append, buildMetrics, hf₀]
          exact ih4 z
    | callable n₀ f₀ =>
      have h' : buildMetrics rest (dictInsert acc n₀ f₀) = .ok m := by
        simpa [buildMetrics] using h
      obtain ⟨ih1, ih2, ih3, ih4⟩ := ih (dictInsert acc n₀ f₀) h'
      refine ⟨?_, ?_, ?_, ?_⟩
      · intro s f hsf
        simp only [List.cons_append, buildMetrics]
        exact ih1 s f hsf
      · intro s hs
        simp only [List.cons_append, buildMetrics]
        exact ih2 s hs
      · intro n f
        simp only [List.cons_append, buildMetrics]
        exact ih3 n f
      · intro z
        simp only [List.cons_append, buildMetrics]
        exact ih4 z
    | other z₀ =>
      have h' : buildMetrics rest acc = .ok m := by
        simpa [buildMetrics] using h
      obtain ⟨ih1, ih2, ih3, ih4⟩ := ih acc h'
      refine ⟨?_, ?_, ?_, ?_⟩
      · intro s f hsf
        simp only [List.cons_append, buildMetrics]
        exact ih1 s f hsf
      · intro s hs
        simp only [List.cons_append, buildMetrics]
        exact ih2 s hs
      · intro n f
        simp only [List.cons_append, buildMetrics]
        exact ih3 n f
      · intro z
        simp only [List.cons_append, buildMetrics]
        exact ih4 z

/-- Witness for C2 (amended): at the concrete entry `other 7` after the
empty prefix, construction of the metrics dict succeeds and binds nothing. -/
theorem claim_C2_amended_witness :
    buildMetrics [StatEntry.other 7] [] = .ok [] :=
  (claim_C2_amended_entry_processing [] [] [] rfl).2.2.2 7

/-- C3: Constructing with a `stats` entry that is a string outside the
known table raises the error at construction time (`Timer.init` itself
returns it, before any wrapped function exists or the target is ever
invoked), and the error carries an offending unknown name from `stats`
together with the list of valid names (the keys of `str_to_function`). -/
theorem claim_C3_unknown_name_raises (runs : Int) (pr : Bool) (rf : Int)
    (stats : List StatEntry)
    (h : ∃ s, StatEntry.str s ∈ stats ∧ dictLookup strToFunction s = none) :
    ∃ s', Timer.init runs pr rf stats = .error ⟨s', strToFunction.map Prod.fst⟩ ∧
      StatEntry.str s' ∈ stats ∧ dictLookup strToFunction s' = none := by
  rcases buildMetrics_error_of_bad stats [] h with ⟨s', h1, h2, h3⟩
  exact ⟨s', by simp [Timer.init, h1], h2, h3⟩

/-- Witness for C3 at the concrete unknown name `"bogus"`. -/
theorem claim_C3_witness :
    ∃ s', Timer.init 3 true (-1) [StatEntry.str "bogus"] =
        .error ⟨s', strToFunction.map Prod.fst⟩ ∧
      StatEntry.str s' ∈ [StatEntry.str "bogus"] ∧
      dictLookup strToFunction s' = none :=
  claim_C3_unknown_name_raises 3 true (-1) [StatEntry.str "bogus"]
    ⟨"bogus", by simp, rfl⟩

/-- C4: With `runs == 1`, requesting `stdev` does not make construction
fail (it succeeds for every well-formed `stats` iterable, including one
containing `"stdev"`); the key `"stdev"` is absent from the bound metrics,
and therefore absent from the report produced by every invocation of the
wrapped function. -/
theorem claim_C4_stdev_dropped_for_one_run {α β ε : Type} (pr : Bool) (rf : Int)
    (stats : List StatEntry) (hv : ∀ e ∈ stats, ValidEntry e) :
    ∃ t, Timer.init 1 pr rf stats = .ok t ∧
      dictContains t.metrics "stdev" = false ∧
      ∀ (f : α → Nat → Except ε β) (dur : Nat → ℚ) (x : α) v rep t' st,
        t.wrapper f dur x = (.ok (v, rep), t', st) →
        dictContains rep "stdev" = false := by
  rcases buildMetrics_ok_of_valid stats [] hv with ⟨m, hm⟩
  have hrep_of : ∀ (tm : Timer), dictContains tm.metrics "stdev" = false →
      ∀ (f : α → Nat → Except ε β) (dur : Nat → ℚ) (x : α) v rep t' st,
        tm.wrapper f dur x = (.ok (v, rep), t', st) →
        dictContains rep "stdev" = false := by
    intro tm hmc f dur x v rep t' st hw
    obtain ⟨hml, hbr, hrv, ht'⟩ := wrapper_ok_inv tm f dur x v rep t' st hw
    have hkeys := buildReport_keys tm.metrics st.timeSeries rep hbr
    by_contra hc
    rw [Bool.not_eq_false, dictContains_mem_keys, hkeys,
      ← dictContains_mem_keys, hmc] at hc
    exact Bool.noConfusion hc
  by_cases hc : dictContains m "stdev" = true
  · refine ⟨⟨"", 1, pr, rf, [], dictDelete m "stdev"⟩, ?_, ?_, ?_⟩
    · simp [Timer.init, hm, hc]
    · exact dictContains_dictDelete_self m "stdev"
    · exact hrep_of _ (dictContains_dictDelete_self m "stdev")
  · have hcf : dictContains m "stdev" = false := by
      rw [← Bool.not_eq_true]
      exact hc
    refine ⟨⟨"", 1, pr, rf, [], m⟩, ?_, hcf, hrep_of _ hcf⟩
    simp [Timer.init, hm, hc]

/-- Witness for C4: the configuration `runs = 1`,
`stats = ["stdev", "total"]` — `stdev` is requested, construction succeeds,
and neither the metrics dict nor any produced report contains `"stdev"`. -/
theorem claim_C4_witness :
    ∃ t, Timer.init 1 true (-1) [StatEntry.str "stdev", StatEntry.str "total"] = .ok t ∧
      dictContains t.metrics "stdev" = false ∧
      ∀ (f : Unit → Nat → Except Unit Nat) (dur : Nat → ℚ) (x : Unit) v rep t' st,
        t.wrapper f dur x = (.ok (v, rep), t', st) →
        dictContains rep "stdev" = false :=
  claim_C4_stdev_dropped_for_one_run true (-1)
    [StatEntry.str "stdev", StatEntry.str "total"]
    (by
      intro e he
      simp at he
      rcases he with rfl | rfl <;> (intro s hs; injection hs with h; subst h; rfl))

/-- C6: Whenever the named statistic `total` is requested (and not shadowed
by a custom callable whose `__name__` is `"total"`), the report entry under
key `"total"` of any successful invocation equals the sum of all entries of
that invocation's sample series. -/
theorem claim_C6_total_is_sum {α β ε : Type} (runs : Int) (pr : Bool) (rf : Int)
    (stats : List StatEntry) (t : Timer)
    (ht : Timer.init runs pr rf stats = .ok t)
    (htotal : StatEntry.str "total" ∈ stats)
    (hnc : ∀ n fn, StatEntry.callable n fn ∈ stats → n ≠ "total")
    (f : α → Nat → Except ε β) (dur : Nat → ℚ) (x : α)
    (v : β) (rep : List (String × ℚ)) (t' : Timer) (st : LoopState α β)
    (hw : t.wrapper f dur x = (.ok (v, rep), t', st)) :
    dictLookup rep "total" = some st.timeSeries.sum := by
  obtain ⟨m, hm, htdef⟩ := init_ok_inv runs pr rf stats t ht
  have htab : dictLookup strToFunction "total" = some pysum := rfl
  have hmt : dictLookup m "total" = some pysum :=
    buildMetrics_lookup_of_mem stats [] m "total" pysum hm htotal htab hnc
  have hmetrics : dictLookup t.metrics "total" = some pysum := by
    rw [htdef]
    dsimp only
    by_cases hc : runs = 1 ∧ dictContains m "stdev" = true
    · rw [if_pos hc, dictLookup_dictDelete_ne m "stdev" "total" (by decide)]
      exact hmt
    · rw [if_neg hc]
      exact hmt
  obtain ⟨hml, hbr, hrv, ht'⟩ := wrapper_ok_inv t f dur x v rep t' st hw
  obtain ⟨val, hval, hlook⟩ :=
    buildReport_dictLookup t.metrics st.timeSeries rep "total" pysum hbr hmetrics
  simp only [pysum, Option.some.injEq] at hval
  rw [hlook, ← hval]

/-- C7: Whenever the named statistics `min` and `max` are requested (and not
shadowed by custom callables of those names), every element of the
invocation's sample series lies between the report's `"min"` and `"max"`
values. -/
theorem claim_C7_min_max_bound {α β ε : Type} (runs : Int) (pr : Bool) (rf : Int)
    (stats : List StatEntry) (t : Timer)
    (ht : Timer.init runs pr rf stats = .ok t)
    (hmin : StatEntry.str "min" ∈ stats)
    (hmax : StatEntry.str "max" ∈ stats)
    (hnc : ∀ n fn, StatEntry.callable n fn ∈ stats → n ≠ "min" ∧ n ≠ "max")
    (f : α → Nat → Except ε β) (dur : Nat → ℚ) (x : α)
    (v : β) (rep : List (String × ℚ)) (t' : Timer) (st : LoopState α β)
    (hw : t.wrapper f dur x = (.ok (v, rep), t', st))
    (mn mx : ℚ)
    (hmn : dictLookup rep "min" = some mn)
    (hmx : dictLookup rep "max" = some mx) :
    ∀ s ∈ st.timeSeries, mn ≤ s ∧ s ≤ mx := by
  obtain ⟨m, hm, htdef⟩ := init_ok_inv runs pr rf stats t ht
  have hlook_of : ∀ (key : String) (fn : MetricFn),
      dictLookup strToFunction key = some fn → StatEntry.str key ∈ stats →
      (∀ n f', StatEntry.callable n f' ∈ stats → n ≠ key) →
      key ≠ "stdev" → dictLookup t.metrics key = some fn := by
    intro key fn htab hkey hnck hks
    have hmt : dictLookup m key = some fn :=
      buildMetrics_lookup_of_mem stats [] m key fn hm hkey htab hnck
    rw [htdef]
    dsimp only
    by_cases hc : runs = 1 ∧ dictContains m "stdev" = true
    · rw [if_pos hc, dictLookup_dictDelete_ne m "stdev" key hks]
      exact hmt
    · rw [if_neg hc]
      exact hmt
  obtain ⟨hml, hbr, hrv, ht'⟩ := wrapper_ok_inv t f dur x v rep t' st hw
  have hmmin : dictLookup t.metrics "min" = some pymin :=
    hlook_of "min" pymin rfl hmin (fun n f' hnf => (hnc n f' hnf).1) (by decide)
  have hmmax : dictLookup t.metrics "max" = some pymax :=
    hlook_of "max" pymax rfl hmax (fun n f' hnf => (hnc n f' hnf).2) (by decide)
  obtain ⟨vmin, hvmin, hlmin⟩ :=
    buildReport_dictLookup t.metrics st.timeSeries rep "min" pymin hbr hmmin
  obtain ⟨vmax, hvmax, hlmax⟩ :=
    buildReport_dictLookup t.metrics st.timeSeries rep "max" pymax hbr hmmax
  rw [hmn] at hlmin
  rw [hmx] at hlmax
  have hvmin' : mn = vmin := Option.some.inj hlmin
  have hvmax' : mx = vmax := Option.some.inj hlmax
  intro s hs
  constructor
  · rw [hvmin']
    exact pymin_le st.timeSeries vmin hvmin s hs
  · rw [hvmax']
    exact le_pymax st.timeSeries vmax hvmax s hs

/-- C8: If the target raises on the (i+1)-th of the scheduled runs of one
wrapped call, that same error propagates unmodified
(`RunError.target e` wraps exactly the target's error), the remaining
scheduled runs are not performed (the target was invoked exactly `i + 1`
times, each time with the call's argument), no retry occurs, and no report
is produced: the returned `Timer` is the unchanged `t`, its stored report
untouched. -/
theorem claim_C8_target_error_propagates {α β ε : Type} (t : Timer)
    (f : α → Nat → Except ε β) (g : Nat → β) (dur : Nat → ℚ) (x : α)
    (i : Nat) (e : ε)
    (hi : i < t.runs.toNat)
    (hpre : ∀ k, k < i → f x k = Except.ok (g k))
    (he : f x i = .error e) :
    t.wrapper f dur x =
      (.error (.target e), t,
       ⟨(List.range' 0 i).map dur,
        if i = 0 then none else some (g (i - 1)),
        List.replicate (i + 1) x⟩) := by
  have hml := measureLoop_error f g dur x t.runs.toNat i e ⟨[], none, []⟩ hi
    (fun k _ h2 => hpre k (by simpa using h2)) (by simpa using he)
  simp only [List.nil_append, List.length_nil, Nat.zero_add] at hml
  unfold Timer.wrapper
  rw [hml]

/-- Witness for C8: a target that raises on its very first run with
`runs = 2`; the wrapped call propagates the error after exactly one
invocation and the timer (hence its stored report) is unchanged. -/
theorem claim_C8_witness :
    (Timer.mk "" 2 true (-1) [] []).wrapper
        (fun (_ : Unit) (_ : Nat) => (Except.error () : Except Unit Nat))
        (fun _ => (0 : ℚ)) () =
      (.error (.target ()), Timer.mk "" 2 true (-1) [] [],
       ⟨[], none, [()]⟩) :=
  claim_C8_target_error_propagates (Timer.mk "" 2 true (-1) [] [])
    (fun _ _ => Except.error ()) (fun _ => 0) (fun _ => 0) () 0 ()
    (by decide) (fun k hk => absurd hk (Nat.not_lt_zero k)) rfl

/-- C9: The configuration (bound metrics, run count, print flag, rounding
precision) is never changed by an invocation of the wrapped function; the
Python-visible outcome and the invocation trace are independent of the
report stored on the instance beforehand (so nothing from an earlier
invocation influences a later one); and on success the report is exactly
the one rebuilt from this invocation's own sample series. -/
theorem claim_C9_fresh_state {α β ε : Type} (t : Timer) (r₀ : List (String × ℚ))
    (f : α → Nat → Except ε β) (dur : Nat → ℚ) (x : α) :
    ((t.wrapper f dur x).2.1.funcName = t.funcName ∧
     (t.wrapper f dur x).2.1.runs = t.runs ∧
     (t.wrapper f dur x).2.1.printReport = t.printReport ∧
     (t.wrapper f dur x).2.1.roundFloats = t.roundFloats ∧
     (t.wrapper f dur x).2.1.metrics = t.metrics) ∧
    ((Timer.mk t.funcName t.runs t.printReport t.roundFloats r₀ t.metrics).wrapper
        f dur x).1 = (t.wrapper f dur x).1 ∧
    ((Timer.mk t.funcName t.runs t.printReport t.roundFloats r₀ t.metrics).wrapper
        f dur x).2.2 = (t.wrapper f dur x).2.2 ∧
    (∀ v rep t' st, t.wrapper f dur x = (.ok (v, rep), t', st) →
       buildReport t.metrics st.timeSeries = .ok rep ∧ t'.report = rep) := by
  unfold Timer.wrapper
  dsimp only
  cases hml : measureLoop f dur x t.runs.toNat ⟨[], none, []⟩ with
  | error p =>
    rcases p with ⟨e, st₀⟩
    dsimp only
    refine ⟨⟨rfl, rfl, rfl, rfl, rfl⟩, rfl, rfl, ?_⟩
    intro v rep t' st h
    simp at h
  | ok st₀ =>
    dsimp only
    cases hbr : buildReport t.metrics st₀.timeSeries with
    | error n =>
      dsimp only
      refine ⟨⟨rfl, rfl, rfl, rfl, rfl⟩, rfl, rfl, ?_⟩
      intro v rep t' st h
      simp at h
    | ok rep₀ =>
      dsimp only
      cases hrv : st₀.rvalue with
      | none =>
        dsimp only
        refine ⟨⟨rfl, rfl, rfl, rfl, rfl⟩, rfl, rfl, ?_⟩
        intro v rep t' st h
        simp at h
      | some v₀ =>
        dsimp only
        refine ⟨⟨rfl, rfl, rfl, rfl, rfl⟩, rfl, rfl, ?_⟩
        intro v rep t' st h
        simp only [Prod.mk.injEq, Except.ok.injEq] at h
        obtain ⟨⟨hv, hrep⟩, ht', hst⟩ := h
        subst hst
        exact ⟨by rw [hbr, hrep], by rw [← ht', hrep]⟩

/-- Witness for C9 at a concrete timer, stored report and target. -/
theorem claim_C9_witness :
    (((Timer.mk "f" 1 true (-1) [("total", 5)] []).wrapper
        (fun (_ : Unit) (_ : Nat) => (Except.ok 7 : Except Unit Nat))
        (fun _ => (0 : ℚ)) ()).2.1.funcName = "f" ∧
     ((Timer.mk "f" 1 true (-1) [("total", 5)] []).wrapper
        (fun (_ : Unit) (_ : Nat) => (Except.ok 7 : Except Unit Nat))
        (fun _ => (0 : ℚ)) ()).2.1.runs = 1 ∧
     ((Timer.mk "f" 1 true (-1) [("total", 5)] []).wrapper
        (fun (_ : Unit) (_ : Nat) => (Except.ok 7 : Except Unit Nat))
        (fun _ => (0 : ℚ)) ()).2.1.printReport = true ∧
     ((Timer.mk "f" 1 true (-1) [("total", 5)] []).wrapper
        (fun (_ : Unit) (_ : Nat) => (Except.ok 7 : Except Unit Nat))
        (fun _ => (0 : ℚ)) ()).2.1.roundFloats = -1 ∧
     ((Timer.mk "f" 1 true (-1) [("total", 5)] []).wrapper
        (fun (_ : Unit) (_ : Nat) => (Except.ok 7 : Except Unit Nat))
        (fun _ => (0 : ℚ)) ()).2.1.metrics = []) ∧
    ((Timer.mk "f" 1 true (-1) [] []).wrapper
        (fun (_ : Unit) (_ : Nat) => (Except.ok 7 : Except Unit Nat))
        (fun _ => (0 : ℚ)) ()).1 =
      ((Timer.mk "f" 1 true (-1) [("total", 5)] []).wrapper
        (fun (_ : Unit) (_ : Nat) => (Except.ok 7 : Except Unit Nat))
        (fun _ => (0 : ℚ)) ()).1 ∧
    ((Timer.mk "f" 1 true (-1) [] []).wrapper
        (fun (_ : Unit) (_ : Nat) => (Except.ok 7 : Except Unit Nat))
        (fun _ => (0 : ℚ)) ()).2.2 =
      ((Timer.mk "f" 1 true (-1) [("total", 5)] []).wrapper
        (fun (_ : Unit) (_ : Nat) => (Except.ok 7 : Except Unit Nat))
        (fun _ => (0 : ℚ)) ()).2.2 ∧
    (∀ v rep t' st,
      (Timer.mk "f" 1 true (-1) [("total", 5)] []).wrapper
        (fun (_ : Unit) (_ : Nat) => (Except.ok 7 : Except Unit Nat))
        (fun _ => (0 : ℚ)) () = (.ok (v, rep), t', st) →
      buildReport [] st.timeSeries = .ok rep ∧ t'.report = rep) :=
  claim_C9_fresh_state (Timer.mk "f" 1 true (-1) [("total", 5)] []) []
    (fun _ _ => Except.ok 7) (fun _ => 0) ()

/-- C10: (a) Success of construction is independent of the run count, so a
`runs == 0` configuration constructs whenever any other run count would.
(b) With `runs ≥ 1` and a non-raising target, the measurement loop runs at
least once, so a last return value exists to pair with the report.
(c) With `runs == 0`, every invocation of the wrapped function fails —
with the statistics error of some reducer applied to the empty sample
series, or, if every reducer accepts the empty series, with the name error
for the never-assigned `rvalue` — and never returns a `(value, report)`
pair. -/
theorem claim_C10_zero_runs_unsafe {α β ε : Type} :
    (∀ (r₁ r₂ : Int) (pr : Bool) (rf : Int) (stats : List StatEntry),
      isOkE (Timer.init r₁ pr rf stats) = isOkE (Timer.init r₂ pr rf stats)) ∧
    (∀ (t : Timer) (f : α → Nat → Except ε β) (g : Nat → β) (dur : Nat → ℚ) (x : α),
      1 ≤ t.runs → (∀ k, f x k = Except.ok (g k)) →
      (t.wrapper f dur x).2.2.rvalue = some (g (t.runs.toNat - 1))) ∧
    (∀ (t : Timer) (f : α → Nat → Except ε β) (dur : Nat → ℚ) (x : α),
      t.runs = 0 →
      ((∃ n, (t.wrapper f dur x).1 = .error (.statisticsError n)) ∨
        (t.wrapper f dur x).1 = .error .nameError)) := by
  refine ⟨?_, ?_, ?_⟩
  · intro r₁ r₂ pr rf stats
    cases hm : buildMetrics stats [] with
    | error e => simp [Timer.init, hm, isOkE]
    | ok m => simp [Timer.init, hm, isOkE]
  · intro t f g dur x hruns hf
    have hml := measureLoop_ok f g dur x t.runs.toNat ⟨[], none, []⟩ (fun k _ _ => hf k)
    rw [wrapper_state_of_loop_ok t f dur x _ hml]
    dsimp only
    rw [if_neg (show ¬ t.runs.toNat = 0 by omega)]
    simp
  · intro t f dur x hz
    have hn : t.runs.toNat = 0 := by omega
    have hml : measureLoop f dur x t.runs.toNat ⟨[], none, []⟩ =
        .ok ⟨[], none, []⟩ := by
      rw [hn]
      rfl
    unfold Timer.wrapper
    rw [hml]
    dsimp only
    cases hbr : buildReport t.metrics ([] : List ℚ) with
    | error n => exact Or.inl ⟨n, rfl⟩
    | ok rep => exact Or.inr rfl

/-- Witness for C10: the timer `runs = 0` with the `mean` metric — the
wrapped call fails with the statistics error of `mean` on the empty
series. -/
theorem claim_C10_witness :
    (∃ n, ((Timer.mk "" 0 true (-1) [] [("mean", pymean)]).wrapper
        (fun (_ : Unit) (_ : Nat) => (Except.ok 7 : Except Unit Nat))
        (fun _ => (0 : ℚ)) ()).1 = .error (.statisticsError n)) ∨
      ((Timer.mk "" 0 true (-1) [] [("mean", pymean)]).wrapper
        (fun (_ : Unit) (_ : Nat) => (Except.ok 7 : Except Unit Nat))
        (fun _ => (0 : ℚ)) ()).1 = .error .nameError :=
  claim_C10_zero_runs_unsafe.2.2 (Timer.mk "" 0 true (-1) [] [("mean", pymean)])
    (fun _ _ => Except.ok 7) (fun _ => 0) () rfl

/-- Witness for C1: a single run of a target returning 42 under the
`total` statistic; the wrapped call performs exactly one invocation and
returns the pair of 42 and the report. -/
theorem claim_C1_witness :
    ∃ rep, buildReport [("total", pysum)] [(0 : ℚ)] = .ok rep ∧
      (Timer.mk "" 1 false (-1) [] [("total", pysum)]).wrapper
          (fun (_ : Unit) (_ : Nat) => (Except.ok 42 : Except Unit Nat))
          (fun _ => (0 : ℚ)) () =
        (.ok (42, rep), Timer.mk "" 1 false (-1) rep [("total", pysum)],
         ⟨[(0 : ℚ)], some 42, [()]⟩) :=
  claim_C1_runs_and_last_value 1 false (-1) [StatEntry.str "total"]
    (Timer.mk "" 1 false (-1) [] [("total", pysum)]) rfl
    (fun n fn h => absurd h (by simp)) (by decide)
    (fun _ _ => Except.ok 42) (fun _ => 42) (fun _ => 0) () (fun k => rfl)

/-- Witness for C5: two runs of a non-raising target build a sample series
of length two. -/
theorem claim_C5_witness :
    (((Timer.mk "" 2 true (-1) [] []).wrapper
        (fun (_ : Unit) (_ : Nat) => (Except.ok 0 : Except Unit Nat))
        (fun _ => (0 : ℚ)) ()).2.2.timeSeries.length : Int) = 2 :=
  claim_C5_sample_series_length (Timer.mk "" 2 true (-1) [] [])
    (fun _ _ => Except.ok 0) (fun _ => 0) (fun _ => 0) () (by decide) (fun k => rfl)

/-- Witness for C6: one timed run with the `total` statistic; the report's
`"total"` entry is the sum of the sample series. -/
theorem claim_C6_witness :
    dictLookup [("total", [(0 : ℚ)].sum)] "total" = some ([(0 : ℚ)].sum) :=
  claim_C6_total_is_sum 1 false (-1) [StatEntry.str "total"]
    (Timer.mk "" 1 false (-1) [] [("total", pysum)]) rfl (by simp)
    (fun n fn h => by simp at h)
    (fun (_ : Unit) (_ : Nat) => (Except.ok 42 : Except Unit Nat)) (fun _ => 0) ()
    42 [("total", [(0 : ℚ)].sum)]
    (Timer.mk "" 1 false (-1) [("total", [(0 : ℚ)].sum)] [("total", pysum)])
    ⟨[(0 : ℚ)], some 42, [()]⟩ rfl

/-- Witness for C7: two timed runs with durations 3 and 5 under `min` and
`max`; the sample 5 lies between the reported minimum 3 and maximum 5. -/
theorem claim_C7_witness : (3 : ℚ) ≤ 5 ∧ (5 : ℚ) ≤ 5 :=
  claim_C7_min_max_bound 2 false (-1) [StatEntry.str "min", StatEntry.str "max"]
    (Timer.mk "" 2 false (-1) [] [("min", pymin), ("max", pymax)]) rfl
    (by simp) (by simp)
    (fun n fn h => by simp at h)
    (fun (_ : Unit) (_ : Nat) => (Except.ok 42 : Except Unit Nat))
    (fun k => if k = 0 then (3 : ℚ) else 5) ()
    42 [("min", (3 : ℚ)), ("max", (5 : ℚ))]
    (Timer.mk "" 2 false (-1) [("min", (3 : ℚ)), ("max", (5 : ℚ))]
      [("min", pymin), ("max", pymax)])
    ⟨[(3 : ℚ), (5 : ℚ)], some 42, [(), ()]⟩ rfl
    3 5 rfl rfl 5 (by simp)

end Profile
